import Mathlib

/-!
Shallow embedding of `stock_tracker.py` (StockPriceTracker).

Python floats are modelled as rationals (`ℚ`), Python dicts as association
lists over `String` keys, JSON values as the inductive `JVal`, and the
external world (price provider, HTTP endpoint, filesystem) as explicit
parameters.  Fallible Python code is modelled with `Except Unit`.
-/

namespace StockTracker

/-- Python `dict[str, float]`, modelled as an association list. -/
abbrev Dict := List (String × ℚ)

/-- Python `d.get(k)`: the value of the first entry with key `k`, if any. -/
def dictGet (d : Dict) (k : String) : Option ℚ :=
  (d.find? (fun p => p.1 == k)).map (fun p => p.2)

/-- Python `d[k] = v`: replace the entry for `k` if present, else append. -/
def dictSet (d : Dict) (k : String) (v : ℚ) : Dict :=
  if d.any (fun p => p.1 == k) then
    d.map (fun p => if p.1 == k then (k, v) else p)
  else
    d ++ [(k, v)]

/-- Whitespace characters stripped by Python `str.strip()`. -/
def isPyWS (c : Char) : Bool :=
  c == ' ' || c == '\t' || c == '\n' || c == '\x0d' || c == '\x0b' || c == '\x0c'

/-- Python `s.strip()`: drop leading and trailing whitespace. -/
def pyStrip (s : String) : String :=
  ⟨((s.data.dropWhile isPyWS).reverse.dropWhile isPyWS).reverse⟩

/-- Python `s.upper()` (ASCII range, which covers ticker symbols). -/
def pyUpper (s : String) : String :=
  ⟨s.data.map Char.toUpper⟩

/-- JSON values as produced by `json.loads`. -/
inductive JVal where
  | jnum (q : ℚ)
  | jstr (s : String)
  | jbool (b : Bool)
  | jnull
  | jarr (xs : List JVal)
  | jobj (fields : List (String × JVal))

/-- Whether a JSON value is an object (`isinstance(raw, dict)`). -/
def JVal.isObj : JVal → Bool
  | .jobj _ => true
  | _ => false

/-- All characters are decimal digits. -/
def allDigits (l : List Char) : Bool :=
  l.all Char.isDigit

/-- Numeric value of a digit string. -/
def natOfDigits (l : List Char) : ℕ :=
  l.foldl (fun n c => 10 * n + (c.toNat - 48)) 0

/-- Parse the mantissa of a Python float literal: `digits`, `digits.digits`,
`.digits` or `digits.`. -/
def parseMantissa (l : List Char) : Option ℚ :=
  match l.splitOn '.' with
  | [ip] =>
    if ip ≠ [] ∧ allDigits ip then some (natOfDigits ip) else none
  | [ip, fp] =>
    if (ip ≠ [] ∨ fp ≠ []) ∧ allDigits ip ∧ allDigits fp then
      some ((natOfDigits ip : ℚ) + (natOfDigits fp : ℚ) / (10 : ℚ) ^ fp.length)
    else none
  | _ => none

/-- Parse the exponent of a Python float literal: optional sign and digits. -/
def parseExp (l : List Char) : Option ℤ :=
  match l with
  | '+' :: rest => if rest ≠ [] ∧ allDigits rest then some (natOfDigits rest) else none
  | '-' :: rest => if rest ≠ [] ∧ allDigits rest then some (-(natOfDigits rest : ℤ)) else none
  | rest => if rest ≠ [] ∧ allDigits rest then some (natOfDigits rest) else none

/-- Parse an unsigned Python float literal, with optional `e`/`E` exponent. -/
def parseCore (l : List Char) : Option ℚ :=
  match (l.map (fun c => if c == 'E' then 'e' else c)).splitOn 'e' with
  | [m] => parseMantissa m
  | [m, e] => do
    let mv ← parseMantissa m
    let ev ← parseExp e
    some (mv * (10 : ℚ) ^ ev)
  | _ => none

/-- Python `float(s)` on a string: strip whitespace, optional sign, decimal
literal with optional fraction and exponent.  Returns `none` where Python
raises `ValueError`. -/
def parseFloat (s : String) : Option ℚ :=
  let l := ((s.data.dropWhile isPyWS).reverse.dropWhile isPyWS).reverse
  match l with
  | '+' :: rest => parseCore rest
  | '-' :: rest => (parseCore rest).map (fun q => -q)
  | rest => parseCore rest

/-- Python `float(value)` on a JSON value: numbers are kept, booleans map to
`1.0`/`0.0`, numeric strings are parsed, everything else raises
(`TypeError`/`ValueError`), modelled as `none`. -/
def pyFloat : JVal → Option ℚ
  | .jnum q => some q
  | .jbool b => some (if b then 1 else 0)
  | .jstr s => parseFloat s
  | .jnull => none
  | .jarr _ => none
  | .jobj _ => none

/-- Raw configuration record, as read by `json.loads` in `load_config`. -/
structure RawConfig where
  tickers : Option (List String)
  drop_percent : Option ℚ

/-- The processed ticker list of `load_config`:
`[t.strip().upper() for t in data.get("tickers", []) if str(t).strip()]`. -/
def normTickers (cfg : RawConfig) : List String :=
  ((cfg.tickers.getD []).filter (fun t => pyStrip t ≠ "")).map (fun t => pyUpper (pyStrip t))

/-- The function `load_config`: normalize tickers, validate non-emptiness, default
`drop_percent` to 20 and validate `0 < drop_percent < 100`.
`Except.error ()` models a raised `ValueError`. -/
def load_config (cfg : RawConfig) : Except Unit (List String × ℚ) :=
  let tickers := normTickers cfg
  if tickers = [] then .error ()
  else
    let drop_percent := cfg.drop_percent.getD 20
    if 0 < drop_percent ∧ drop_percent < 100 then .ok (tickers, drop_percent)
    else .error ()

/-- One `load_highs` loop step: `highs[str(key).upper()] = float(value)`,
skipping the entry when `float` raises. -/
def loadStep (acc : Dict) (kv : String × JVal) : Dict :=
  match pyFloat kv.2 with
  | some q => dictSet acc (pyUpper kv.1) q
  | none => acc

/-- The function `load_highs`: `none` models a missing file (returns `{}`); a non-object
file raises `ValueError`; otherwise each entry is converted with `float`,
bad entries skipped with a warning. -/
def load_highs (file : Option JVal) : Except Unit Dict :=
  match file with
  | none => .ok []
  | some (.jobj fields) => .ok (fields.foldl loadStep [])
  | some _ => .error ()

/-- Insert a key into a sorted key list (ascending). -/
def sortedInsert (k : String) : List String → List String
  | [] => [k]
  | x :: xs => if k ≤ x then k :: x :: xs else x :: sortedInsert k xs

/-- Python `sorted(...)` on a list of strings (insertion sort). -/
def pySorted (ks : List String) : List String :=
  ks.foldr sortedInsert []

/-- The function `save_highs`: the JSON object written to disk,
`{k: highs[k] for k in sorted(highs)}`. -/
def save_highs (highs : Dict) : JVal :=
  .jobj ((pySorted (highs.map Prod.fst)).map
    (fun k => (k, .jnum ((dictGet highs k).getD 0))))

/-- The provider side of `fetch_price`: `fast_info` either raises
(`Except.error`) or returns a dict, and `history(period="5d")` yields a list
of daily closes (oldest first). -/
structure Provider where
  fastInfo : Except Unit (List (String × ℚ))
  closes : List ℚ

/-- The fast-quote path of `fetch_price`: the provider exception is
swallowed (`fast_info = None`); a falsy (empty) dict, a missing
`last_price`, or a falsy (zero) `last_price` yield nothing. -/
def fastQuote (p : Provider) : Option ℚ :=
  match p.fastInfo with
  | .error _ => none
  | .ok d =>
    if d.isEmpty then none
    else
      match (d.find? (fun kv => kv.1 == "last_price")).map (fun kv => kv.2) with
      | some q => if q == 0 then none else some q
      | none => none

/-- The function `fetch_price`: fast quote if available, else the most recent of the
5-day historical closes; raises `ValueError` when the history is empty. -/
def fetch_price (p : Provider) : Except Unit ℚ :=
  match fastQuote p with
  | some q => .ok q
  | none =>
    match p.closes.getLast? with
    | some c => .ok c
    | none => .error ()

/-- Outcome of `requests.post` on the Telegram endpoint: either a response
with a status code and body, or a raised network exception. -/
inductive NetOutcome where
  | resp (status : ℕ) (body : String)
  | exn

/-- Python truthiness of an optional string: `None` and `""` are falsy. -/
def strTruthy : Option String → Bool
  | none => false
  | some s => s ≠ ""

/-- The function `send_telegram_message`: returns `False` when unconfigured (no network
call), otherwise posts and returns `response.ok` (status < 400); a network
exception propagates (`Except.error`). -/
def send_telegram_message (token chat_id : Option String) (text : String)
    (net : NetOutcome) : Except Unit Bool :=
  if !strTruthy token || !strTruthy chat_id then .ok false
  else
    match net with
    | .exn => .error ()
    | .resp status _ => .ok (decide (status < 400))

/-- What the `main` loop did for one ticker. -/
inductive StepAction where
  | fetchFailed
  | initialHigh (price : ℚ)
  | newHigh (price : ℚ)
  | alertAttempt (price : ℚ)
  | steady (price : ℚ)
deriving DecidableEq

/-- Whether a step set or raised the ticker's high (`updated_highs = True`). -/
def StepAction.raisesHigh : StepAction → Bool
  | .initialHigh _ => true
  | .newHigh _ => true
  | _ => false

/-- One iteration of the `main` ticker loop: `fetched = none` models a
`fetch_price` failure (caught, ticker skipped).  Returns the new highs
dict, whether this step set `updated_highs`, and the action taken. -/
def processTicker (drop_factor : ℚ) (highs : Dict) (ticker : String)
    (fetched : Option ℚ) : Dict × Bool × StepAction :=
  match fetched with
  | none => (highs, false, .fetchFailed)
  | some price =>
    match dictGet highs ticker with
    | none => (dictSet highs ticker price, true, .initialHigh price)
    | some high =>
      if high < price then (dictSet highs ticker price, true, .newHigh price)
      else
        let threshold := high * drop_factor
        if price ≤ threshold then (highs, false, .alertAttempt price)
        else (highs, false, .steady price)

/-- The `main` ticker loop over the configured tickers, each paired with its
fetch result.  Returns the final highs dict, the final `updated_highs`
flag, and the per-ticker actions in order. -/
def runLoop (drop_factor : ℚ) : List (String × Option ℚ) → Dict → Bool →
    Dict × Bool × List (String × StepAction)
  | [], highs, dirty => (highs, dirty, [])
  | (t, f) :: rest, highs, dirty =>
    let step := processTicker drop_factor highs t f
    let tail := runLoop drop_factor rest step.1 (dirty || step.2.1)
    (tail.1, tail.2.1, (t, step.2.2) :: tail.2.2)

/-- The whole of `main` after config/highs loading: `drop_factor =
1 - drop_percent / 100.0`, loop over tickers, and the final `updated_highs`
flag deciding whether `save_highs` is invoked. -/
def mainRun (drop_percent : ℚ) (fetches : List (String × Option ℚ))
    (highs0 : Dict) : Dict × Bool × List (String × StepAction) :=
  runLoop (1 - drop_percent / 100) fetches highs0 false

/-! ### Association-list lemmas -/

theorem find?_map_set_self (d : Dict) (k : String) (v : ℚ)
    (h : d.any (fun p => p.1 == k) = true) :
    (d.map (fun p => if p.1 == k then (k, v) else p)).find? (fun p => p.1 == k)
      = some (k, v) := by
  induction d with
  | nil => simp at h
  | cons p tl ih =>
    simp only [List.map_cons]
    by_cases hp : (p.1 == k) = true
    · rw [if_pos hp]
      simp only [List.find?, beq_self_eq_true]
    · rw [if_neg hp]
      have hb : (p.1 == k) = false := by simpa using hp
      simp only [List.find?, hb]
      apply ih
      simp only [List.any_cons, Bool.or_eq_true] at h
      rcases h with h | h
      · exact absurd h hp
      · exact h

theorem find?_append_fresh (d : Dict) (k : String) (v : ℚ)
    (h : d.any (fun p => p.1 == k) = false) :
    (d ++ [(k, v)]).find? (fun p => p.1 == k) = some (k, v) := by
  rw [List.find?_append]
  have h1 : d.find? (fun p => p.1 == k) = none := by
    rw [List.find?_eq_none]
    intro x hx hb
    have hc : d.any (fun p => p.1 == k) = true := List.any_eq_true.mpr ⟨x, hx, hb⟩
    rw [hc] at h
    cases h
  rw [h1, Option.none_or]
  simp only [List.find?, beq_self_eq_true]

theorem dictGet_dictSet_self (d : Dict) (k : String) (v : ℚ) :
    dictGet (dictSet d k v) k = some v := by
  unfold dictGet dictSet
  by_cases h : d.any (fun p => p.1 == k) = true
  · rw [if_pos h, find?_map_set_self d k v h]
    rfl
  · rw [if_neg h, find?_append_fresh d k v (by simp only [Bool.not_eq_true] at h; exact h)]
    rfl

theorem find?_map_set_ne (d : Dict) (k k' : String) (v : ℚ) (hne : k' ≠ k) :
    (d.map (fun p => if p.1 == k then (k, v) else p)).find? (fun p => p.1 == k')
      = d.find? (fun p => p.1 == k') := by
  induction d with
  | nil => rfl
  | cons p tl ih =>
    simp only [List.map_cons]
    by_cases hp : (p.1 == k) = true
    · have hpk : p.1 = k := by simpa using hp
      have hb1 : (k == k') = false := beq_eq_false_iff_ne.mpr (Ne.symm hne)
      have hb2 : (p.1 == k') = false := by rw [hpk]; exact hb1
      rw [if_pos hp]
      simp only [List.find?, hb1, hb2]
      exact ih
    · rw [if_neg hp]
      by_cases hq : (p.1 == k') = true
      · simp only [List.find?, hq]
      · have hb : (p.1 == k') = false := by simpa using hq
        simp only [List.find?, hb]
        exact ih

theorem dictGet_dictSet_ne (d : Dict) (k k' : String) (v : ℚ) (hne : k' ≠ k) :
    dictGet (dictSet d k v) k' = dictGet d k' := by
  unfold dictGet dictSet
  by_cases h : d.any (fun p => p.1 == k) = true
  · rw [if_pos h, find?_map_set_ne d k k' v hne]
  · rw [if_neg h, List.find?_append]
    have h1 : [(k, v)].find? (fun p => p.1 == k') = none := by
      rw [List.find?_eq_none]
      intro x hx
      simp only [List.mem_singleton] at hx
      subst hx
      simp only [beq_iff_eq]
      exact fun hh => hne (hh.symm)
    rw [h1, Option.or_none]

/-! ### Claim theorems -/

/-- C1: for a ticker with a recorded high and a fetched price not exceeding
it, the run attempts an alert iff `price ≤ high * (1 - drop_percent / 100)`;
the boundary is inclusive, and with high = 100, drop_percent = 20, the
threshold is exactly 80: price 80 alerts and price 80.01 does not. -/
theorem c1_alert_iff_threshold :
    (∀ (drop_percent : ℚ) (highs : Dict) (t : String) (high price : ℚ),
        dictGet highs t = some high → ¬ high < price →
        ((processTicker (1 - drop_percent / 100) highs t (some price)).2.2
            = StepAction.alertAttempt price
          ↔ price ≤ high * (1 - drop_percent / 100)))
    ∧ (100 : ℚ) * (1 - 20 / 100) = 80
    ∧ (processTicker (1 - 20 / 100) [("A", 100)] "A" (some 80)).2.2
        = StepAction.alertAttempt 80
    ∧ (processTicker (1 - 20 / 100) [("A", 100)] "A" (some (8001 / 100))).2.2
        = StepAction.steady (8001 / 100) := by
  refine ⟨?_, by norm_num, by norm_num [processTicker, dictGet, List.find?],
    by norm_num [processTicker, dictGet, List.find?]⟩
  intro dp highs t high price hget hlt
  simp only [processTicker, hget, if_neg hlt]
  by_cases hle : price ≤ high * (1 - dp / 100)
  · simp [hle]
  · simp [hle]

/-- C1 witness: the general branch of `c1_alert_iff_threshold` applied at
high = 100, drop_percent = 20, price = 80. -/
theorem c1_alert_iff_threshold_witness :
    (processTicker (1 - 20 / 100) [("A", 100)] "A" (some 80)).2.2
        = StepAction.alertAttempt 80 ↔ (80 : ℚ) ≤ 100 * (1 - 20 / 100) :=
  c1_alert_iff_threshold.1 20 [("A", 100)] "A" 100 80 rfl (by norm_num)

/-- C2: a first-seen ticker records the price as its high (no alert
evaluation), a strictly higher price updates the high (no alert
evaluation), and any step that sets `updated_highs` cannot be an alert
attempt. -/
theorem c2_high_update_precedence :
    ∀ (drop_percent : ℚ) (highs : Dict) (t : String) (price : ℚ),
      (dictGet highs t = none →
        processTicker (1 - drop_percent / 100) highs t (some price)
          = (dictSet highs t price, true, StepAction.initialHigh price))
      ∧ (∀ high, dictGet highs t = some high → high < price →
          processTicker (1 - drop_percent / 100) highs t (some price)
            = (dictSet highs t price, true, StepAction.newHigh price))
      ∧ ((processTicker (1 - drop_percent / 100) highs t (some price)).2.1
            = true →
          ∀ q, (processTicker (1 - drop_percent / 100) highs t (some price)).2.2
            ≠ StepAction.alertAttempt q) := by
  intro dp highs t price
  refine ⟨?_, ?_, ?_⟩
  · intro h
    simp [processTicker, h]
  · intro high h hlt
    simp [processTicker, h, hlt]
  · intro hdirty q
    simp only [processTicker] at hdirty ⊢
    cases hg : dictGet highs t with
    | none => simp [hg]
    | some high =>
      simp only [hg] at hdirty ⊢
      by_cases hlt : high < price
      · simp [hlt]
      · simp only [if_neg hlt] at hdirty ⊢
        by_cases hle : price ≤ high * (1 - dp / 100)
        · simp [hle] at hdirty
        · simp [hle] at hdirty

/-- C2 witness: first sight of ticker A at price 50 with drop_percent 20
stores high 50 and does not alert. -/
theorem c2_high_update_precedence_witness :
    processTicker (1 - 20 / 100) [] "A" (some 50)
      = ([("A", 50)], true, StepAction.initialHigh 50) :=
  (c2_high_update_precedence 20 [] "A" 50).1 rfl

theorem processTicker_mono (f : ℚ) (highs : Dict) (t : String)
    (fetched : Option ℚ) (k : String) (v : ℚ) (h : dictGet highs k = some v) :
    ∃ v', dictGet (processTicker f highs t fetched).1 k = some v' ∧ v ≤ v' := by
  cases fetched with
  | none => exact ⟨v, h, le_rfl⟩
  | some price =>
    by_cases hkt : k = t
    · subst hkt
      simp only [processTicker, h]
      by_cases hlt : v < price
      · rw [if_pos hlt]
        exact ⟨price, dictGet_dictSet_self highs k price, le_of_lt hlt⟩
      · rw [if_neg hlt]
        have hif : (if price ≤ v * f then (highs, false, StepAction.alertAttempt price)
            else (highs, false, StepAction.steady price)).1 = highs := by
          split <;> rfl
        rw [hif]
        exact ⟨v, h, le_rfl⟩
    · cases hg : dictGet highs t with
      | none =>
        simp only [processTicker, hg]
        exact ⟨v, by rw [dictGet_dictSet_ne highs t k price hkt]; exact h, le_rfl⟩
      | some high =>
        simp only [processTicker, hg]
        by_cases hlt : high < price
        · rw [if_pos hlt]
          exact ⟨v, by rw [dictGet_dictSet_ne highs t k price hkt]; exact h, le_rfl⟩
        · rw [if_neg hlt]
          have hif : (if price ≤ high * f then (highs, false, StepAction.alertAttempt price)
              else (highs, false, StepAction.steady price)).1 = highs := by
            split <;> rfl
          rw [hif]
          exact ⟨v, h, le_rfl⟩

theorem runLoop_mono (f : ℚ) (steps : List (String × Option ℚ)) (highs : Dict)
    (dirty : Bool) (k : String) (v : ℚ) (h : dictGet highs k = some v) :
    ∃ v', dictGet (runLoop f steps highs dirty).1 k = some v' ∧ v ≤ v' := by
  induction steps generalizing highs dirty v with
  | nil => exact ⟨v, h, le_rfl⟩
  | cons s rest ih =>
    obtain ⟨t, fetched⟩ := s
    obtain ⟨v1, h1, hle1⟩ := processTicker_mono f highs t fetched k v h
    obtain ⟨v2, h2, hle2⟩ :=
      ih (processTicker f highs t fetched).1
        (dirty || (processTicker f highs t fetched).2.1) v1 h1
    exact ⟨v2, by simpa [runLoop] using h2, le_trans hle1 hle2⟩

/-- C3: across a whole run, every ticker present in the loaded highs table
keeps an entry whose value never decreases. -/
theorem c3_high_monotone :
    ∀ (drop_percent : ℚ) (fetches : List (String × Option ℚ)) (highs0 : Dict)
      (k : String) (v : ℚ), dictGet highs0 k = some v →
      ∃ v', dictGet (mainRun drop_percent fetches highs0).1 k = some v' ∧ v ≤ v' :=
  fun dp fetches highs0 k v h => runLoop_mono (1 - dp / 100) fetches highs0 false k v h

/-- C3 witness: a ticker at high 100 alerted at price 50 keeps its high. -/
theorem c3_high_monotone_witness :
    ∃ v', dictGet (mainRun 20 [("A", some 50)] [("A", 100)]).1 "A" = some v'
      ∧ (100 : ℚ) ≤ v' :=
  c3_high_monotone 20 [("A", some 50)] [("A", 100)] "A" 100 rfl

theorem processTicker_dirty_eq (f : ℚ) (highs : Dict) (t : String)
    (fetched : Option ℚ) :
    (processTicker f highs t fetched).2.1
      = (processTicker f highs t fetched).2.2.raisesHigh := by
  cases fetched with
  | none => rfl
  | some price =>
    simp only [processTicker]
    split
    · rfl
    · split
      · rfl
      · split <;> rfl

theorem runLoop_dirty (f : ℚ) (steps : List (String × Option ℚ)) (highs : Dict)
    (dirty : Bool) :
    (runLoop f steps highs dirty).2.1
      = (dirty || (runLoop f steps highs dirty).2.2.any
          (fun pa => pa.2.raisesHigh)) := by
  induction steps generalizing highs dirty with
  | nil => simp [runLoop]
  | cons s rest ih =>
    obtain ⟨t, fetched⟩ := s
    simp only [runLoop]
    rw [ih]
    simp [List.any_cons, processTicker_dirty_eq, Bool.or_assoc]

/-- C9: the final `updated_highs` flag (which alone decides whether
`save_highs` runs) is true iff some ticker's step set or raised its high;
otherwise the highs file is untouched and "no updates" is logged. -/
theorem c9_save_iff_high_update :
    ∀ (drop_percent : ℚ) (fetches : List (String × Option ℚ)) (highs0 : Dict),
      ((mainRun drop_percent fetches highs0).2.1 = true ↔
        ∃ p ∈ (mainRun drop_percent fetches highs0).2.2,
          StepAction.raisesHigh p.2 = true) := by
  intro dp fetches highs0
  rw [mainRun, runLoop_dirty]
  simp [List.any_eq_true]

/-- C9 witness: a run that sets an initial high marks the store dirty. -/
theorem c9_save_iff_high_update_witness :
    (mainRun 20 [("A", some 50)] []).2.1 = true :=
  (c9_save_iff_high_update 20 [("A", some 50)] []).mpr
    ⟨("A", StepAction.initialHigh 50),
      by norm_num [mainRun, runLoop, processTicker, dictGet, List.find?], rfl⟩

/-- C4 counterexample: with both credentials present, a network exception
during the POST propagates out of `send_telegram_message` (the call is not
wrapped in any handler) instead of being reported as "not sent". -/
theorem c4_network_exception_propagates :
    send_telegram_message (some "t") (some "c") "hi" NetOutcome.exn
        = Except.error ()
    ∧ send_telegram_message (some "t") (some "c") "hi" NetOutcome.exn
        ≠ Except.ok false := by
  refine ⟨rfl, ?_⟩
  intro h
  rw [show send_telegram_message (some "t") (some "c") "hi" NetOutcome.exn
      = Except.error () from rfl] at h
  cases h

/-- C4 amended: `send_telegram_message` reports "not sent" without raising
when a credential or recipient is missing (performing no network call) and
when the HTTP status is non-success; but a network exception during the
send propagates as an exception. -/
theorem c4_delivery_failure_reporting :
    (∀ (token chat_id : Option String) (text : String) (net net' : NetOutcome),
        (strTruthy token = false ∨ strTruthy chat_id = false) →
        send_telegram_message token chat_id text net = Except.ok false
          ∧ send_telegram_message token chat_id text net
              = send_telegram_message token chat_id text net')
    ∧ (∀ (token chat_id : Option String) (text : String) (status : ℕ)
          (body : String),
        strTruthy token = true → strTruthy chat_id = true → ¬ status < 400 →
        send_telegram_message token chat_id text (NetOutcome.resp status body)
          = Except.ok false)
    ∧ (∀ (token chat_id : Option String) (text : String),
        strTruthy token = true → strTruthy chat_id = true →
        send_telegram_message token chat_id text NetOutcome.exn
          = Except.error ()) := by
  refine ⟨?_, ?_, ?_⟩
  · intro token chat_id text net net' h
    rcases h with h | h <;>
      exact ⟨by simp [send_telegram_message, h], by simp [send_telegram_message, h]⟩
  · intro token chat_id text status body h1 h2 h3
    simp [send_telegram_message, h1, h2, h3]
  · intro token chat_id text h1 h2
    simp [send_telegram_message, h1, h2]

/-- C4 witness: with no token configured, delivery is reported "not sent"
and the outcome is independent of the network. -/
theorem c4_delivery_failure_reporting_witness :
    send_telegram_message none (some "c") "hi" NetOutcome.exn = Except.ok false
    ∧ send_telegram_message none (some "c") "hi" NetOutcome.exn
        = send_telegram_message none (some "c") "hi" (NetOutcome.resp 200 "") :=
  c4_delivery_failure_reporting.1 none (some "c") "hi" NetOutcome.exn
    (NetOutcome.resp 200 "") (Or.inl rfl)

/-- C6: `load_config` normalizes tickers (trim, uppercase, drop blank
entries), defaults `drop_percent` to 20, and fails iff the processed
ticker list is empty or `drop_percent` is outside the open interval
(0, 100); 0, 100, 150 are rejected, as are `[]` and `["  "]`. -/
theorem c6_config_validation :
    (∀ cfg : RawConfig,
        load_config cfg = Except.error ()
          ↔ (normTickers cfg = [] ∨
              ¬ (0 < cfg.drop_percent.getD 20 ∧ cfg.drop_percent.getD 20 < 100)))
    ∧ (∀ (cfg : RawConfig) (res : List String × ℚ), load_config cfg = Except.ok res →
        res = (normTickers cfg, cfg.drop_percent.getD 20))
    ∧ load_config ⟨some ["  aapl "], none⟩ = Except.ok (["AAPL"], 20)
    ∧ load_config ⟨some ["a"], some 0⟩ = Except.error ()
    ∧ load_config ⟨some ["a"], some 100⟩ = Except.error ()
    ∧ load_config ⟨some ["a"], some 150⟩ = Except.error ()
    ∧ load_config ⟨some [], some 20⟩ = Except.error ()
    ∧ load_config ⟨some ["  "], some 20⟩ = Except.error () := by
  refine ⟨?_, ?_, ?_, ?_, ?_, ?_, ?_, ?_⟩
  · intro cfg
    unfold load_config
    by_cases he : normTickers cfg = []
    · simp [he]
    · simp only [if_neg he]
      by_cases hc : 0 < cfg.drop_percent.getD 20 ∧ cfg.drop_percent.getD 20 < 100
      · simp [hc, he]
      · simp [hc, he]
  · intro cfg res h
    unfold load_config at h
    by_cases he : normTickers cfg = []
    · simp [he] at h
    · simp only [if_neg he] at h
      by_cases hc : 0 < cfg.drop_percent.getD 20 ∧ cfg.drop_percent.getD 20 < 100
      · rw [if_pos hc] at h
        cases h
        rfl
      · simp [hc] at h
  · rfl
  · rfl
  · rfl
  · rfl
  · rfl
  · rfl

/-- C6 witness: the error characterization applied to the rejected config
`drop_percent = 150`. -/
theorem c6_config_validation_witness :
    load_config ⟨some ["a"], some 150⟩ = Except.error ()
      ↔ (normTickers ⟨some ["a"], some 150⟩ = [] ∨
          ¬ (0 < (some (150 : ℚ)).getD 20 ∧ (some (150 : ℚ)).getD 20 < 100)) :=
  c6_config_validation.1 ⟨some ["a"], some 150⟩

/-- C7: a missing highs file loads as the empty mapping, a non-object file
is a format error, any object loads successfully, and a non-numeric entry
is skipped while the rest load (`{"AAA": 10, "BBB": "x"}` loads as
`{"AAA": 10.0}`). -/
theorem c7_load_highs_error_handling :
    load_highs none = Except.ok []
    ∧ (∀ j : JVal, j.isObj = false → load_highs (some j) = Except.error ())
    ∧ (∀ fields : List (String × JVal), ∃ m, load_highs (some (.jobj fields)) = Except.ok m)
    ∧ load_highs (some (.jobj [("AAA", .jnum 10), ("BBB", .jstr "x")]))
        = Except.ok [("AAA", 10)] := by
  refine ⟨rfl, ?_, ?_, ?_⟩
  · intro j hj
    cases j <;> first | rfl | exact absurd hj (by simp [JVal.isObj])
  · intro fields
    exact ⟨_, rfl⟩
  · rfl

/-- C7 witness: the non-object case applied to a JSON array. -/
theorem c7_load_highs_error_handling_witness :
    load_highs (some (.jarr [])) = Except.error () :=
  c7_load_highs_error_handling.2.1 (.jarr []) rfl

/-- C8: `fetch_price` returns the fast quote when present and truthy, else
the most recent 5-day close; it fails exactly when the fast path yields
nothing and the history is empty; a provider exception during the fast
path is swallowed and behaves like an absent fast quote. -/
theorem c8_fetch_price_fallback :
    (∀ (p : Provider) (q : ℚ), fastQuote p = some q → fetch_price p = Except.ok q)
    ∧ (∀ p : Provider, fastQuote p = none →
        ∀ c, p.closes.getLast? = some c → fetch_price p = Except.ok c)
    ∧ (∀ p : Provider, fetch_price p = Except.error ()
        ↔ (fastQuote p = none ∧ p.closes = []))
    ∧ (∀ closes : List ℚ,
        fetch_price ⟨Except.error (), closes⟩ = fetch_price ⟨Except.ok [], closes⟩) := by
  refine ⟨?_, ?_, ?_, ?_⟩
  · intro p q h
    simp [fetch_price, h]
  · intro p h c hc
    simp [fetch_price, h, hc]
  · intro p
    constructor
    · intro h
      unfold fetch_price at h
      cases hq : fastQuote p with
      | some q => rw [hq] at h; cases h
      | none =>
        rw [hq] at h
        cases hc : p.closes.getLast? with
        | some c => rw [hc] at h; cases h
        | none => exact ⟨rfl, List.getLast?_eq_none_iff.mp hc⟩
    · rintro ⟨h1, h2⟩
      simp [fetch_price, h1, h2]
  · intro closes
    rfl

/-- C8 witness: a truthy fast quote of 5 is returned directly. -/
theorem c8_fetch_price_fallback_witness :
    fetch_price ⟨Except.ok [("last_price", 5)], []⟩ = Except.ok 5 :=
  c8_fetch_price_fallback.1 ⟨Except.ok [("last_price", 5)], []⟩ 5 rfl

theorem dictSet_fresh (d : Dict) (k : String) (v : ℚ)
    (h : k ∉ d.map Prod.fst) : dictSet d k v = d ++ [(k, v)] := by
  have hf : d.any (fun p => p.1 == k) = false := by
    rw [List.any_eq_false]
    intro p hp hb
    exact h (List.mem_map.mpr ⟨p, hp, by simpa using hb⟩)
  unfold dictSet
  rw [hf]
  simp

theorem sortedInsert_perm (k : String) (l : List String) :
    (sortedInsert k l).Perm (k :: l) := by
  induction l with
  | nil => exact List.Perm.refl _
  | cons x xs ih =>
    unfold sortedInsert
    by_cases h : k ≤ x
    · rw [if_pos h]
    · rw [if_neg h]
      exact (ih.cons x).trans (List.Perm.swap k x xs)

theorem pySorted_perm (ks : List String) : (pySorted ks).Perm ks := by
  induction ks with
  | nil => exact List.Perm.refl _
  | cons x xs ih =>
    unfold pySorted
    simp only [List.foldr_cons]
    exact (sortedInsert_perm x _).trans (ih.cons x)

theorem mem_keys_iff_isSome (d : Dict) (k : String) :
    k ∈ d.map Prod.fst ↔ (dictGet d k).isSome = true := by
  induction d with
  | nil => simp [dictGet]
  | cons p tl ih =>
    by_cases hp : p.1 = k
    · simp [dictGet, List.find?, hp]
    · have hb : (p.1 == k) = false := beq_eq_false_iff_ne.mpr hp
      simp only [List.map_cons, List.mem_cons, dictGet, List.find?, hb]
      rw [dictGet] at ih
      rw [← ih]
      constructor
      · rintro (h | h)
        · exact absurd h.symm hp
        · exact h
      · exact fun h => Or.inr h

theorem foldl_loadStep_fresh (ks : List String) (f : String → ℚ) (acc : Dict) :
    ks.Nodup → (∀ k ∈ ks, pyUpper k = k) →
    (∀ k ∈ ks, k ∉ acc.map Prod.fst) →
    (ks.map (fun k => (k, JVal.jnum (f k)))).foldl loadStep acc
      = acc ++ ks.map (fun k => (k, f k)) := by
  induction ks generalizing acc with
  | nil => simp
  | cons x xs ih =>
    intro hnd hup hfr
    simp only [List.map_cons, List.foldl_cons]
    have hx : loadStep acc (x, JVal.jnum (f x)) = acc ++ [(x, f x)] := by
      unfold loadStep
      simp only [pyFloat]
      rw [hup x (by simp)]
      exact dictSet_fresh acc x (f x) (hfr x (by simp))
    rw [hx, ih (acc ++ [(x, f x)]) (List.Nodup.of_cons hnd)
      (fun k hk => hup k (by simp [hk])) ?fresh]
    · simp
    case fresh =>
      intro k hk hmem
      simp only [List.map_append, List.mem_append, List.map_cons, List.map_nil,
        List.mem_singleton] at hmem
      rcases hmem with hmem | hmem
      · exact hfr k (by simp [hk]) hmem
      · rw [List.nodup_cons] at hnd
        exact hnd.1 (hmem ▸ hk)

theorem dictGet_map_fn (ks : List String) (f : String → ℚ) (k : String) :
    dictGet (ks.map (fun x => (x, f x))) k
      = if k ∈ ks then some (f k) else none := by
  induction ks with
  | nil => simp [dictGet]
  | cons x xs ih =>
    by_cases hx : x = k
    · subst hx
      simp [dictGet, List.find?]
    · have hb : (x == k) = false := beq_eq_false_iff_ne.mpr hx
      simp only [List.map_cons, dictGet, List.find?, hb]
      rw [dictGet] at ih
      rw [ih]
      by_cases hmem : k ∈ xs
      · simp [hmem]
      · have : k ∉ x :: xs := by
          intro hc
          rcases List.mem_cons.mp hc with hc | hc
          · exact hx hc.symm
          · exact hmem hc
        simp [hmem, this]

/-- C5: saving a well-formed highs mapping (distinct, uppercase ticker
keys, positive values) and loading it back yields exactly the same
mapping. -/
theorem c5_save_load_roundtrip :
    ∀ M : Dict, (M.map Prod.fst).Nodup →
      (∀ k ∈ M.map Prod.fst, pyUpper k = k) →
      (∀ p ∈ M, 0 < p.2) →
      ∃ m, load_highs (some (save_highs M)) = Except.ok m
        ∧ ∀ k, dictGet m k = dictGet M k := by
  intro M hnd hup _hpos
  have hperm : (pySorted (M.map Prod.fst)).Perm (M.map Prod.fst) :=
    pySorted_perm (M.map Prod.fst)
  have hnd' : (pySorted (M.map Prod.fst)).Nodup := hperm.nodup_iff.mpr hnd
  have hbuild := foldl_loadStep_fresh (pySorted (M.map Prod.fst))
    (fun k => (dictGet M k).getD 0) [] hnd'
    (fun k hk => hup k (hperm.mem_iff.mp hk)) (by simp)
  refine ⟨_, rfl, ?_⟩
  intro k
  rw [hbuild, List.nil_append, dictGet_map_fn]
  by_cases hmem : k ∈ M.map Prod.fst
  · rw [if_pos (hperm.mem_iff.mpr hmem)]
    obtain ⟨v, hv⟩ := Option.isSome_iff_exists.mp ((mem_keys_iff_isSome M k).mp hmem)
    rw [hv]
    rfl
  · rw [if_neg (fun hc => hmem (hperm.mem_iff.mp hc))]
    have : ¬ (dictGet M k).isSome = true := fun hc =>
      hmem ((mem_keys_iff_isSome M k).mpr hc)
    cases hg : dictGet M k with
    | none => rfl
    | some v => exact absurd (by rw [hg]; rfl) this

/-- C5 witness: the round trip at the concrete mapping AAPL ↦ 123. -/
theorem c5_save_load_roundtrip_witness :
    ∃ m, load_highs (some (save_highs [("AAPL", 123)])) = Except.ok m
      ∧ ∀ k, dictGet m k = dictGet [("AAPL", 123)] k :=
  c5_save_load_roundtrip [("AAPL", 123)] (by simp) (by decide) (by decide)

theorem foldl_loadStep_eq_filterMap (fields : List (String × JVal)) (acc : Dict) :
    (fields.map (fun p => pyUpper p.1)).Nodup →
    (∀ p ∈ fields, pyUpper p.1 ∉ acc.map Prod.fst) →
    fields.foldl loadStep acc = acc ++ fields.filterMap
      (fun p => (pyFloat p.2).map (fun q => (pyUpper p.1, q))) := by
  induction fields generalizing acc with
  | nil => simp
  | cons p ps ih =>
    intro hnd hfr
    simp only [List.foldl_cons, List.filterMap_cons]
    cases hv : pyFloat p.2 with
    | none =>
      have hstep : loadStep acc p = acc := by
        unfold loadStep
        rw [hv]
      rw [hstep, ih acc (by simpa using List.Nodup.of_cons (by simpa using hnd))
        (fun p' hp' => hfr p' (by simp [hp']))]
      simp [hv]
    | some q =>
      have hstep : loadStep acc p = acc ++ [(pyUpper p.1, q)] := by
        unfold loadStep
        rw [hv]
        exact dictSet_fresh acc (pyUpper p.1) q (hfr p (by simp))
      rw [hstep, ih (acc ++ [(pyUpper p.1, q)])
        (by simpa using List.Nodup.of_cons (by simpa using hnd)) ?fresh]
      · simp [hv]
      case fresh =>
        intro p' hp' hmem
        simp only [List.map_append, List.mem_append, List.map_cons, List.map_nil,
          List.mem_singleton] at hmem
        rcases hmem with hmem | hmem
        · exact hfr p' (by simp [hp']) hmem
        · simp only [List.map_cons, List.nodup_cons] at hnd
          exact hnd.1 (hmem ▸ List.mem_map.mpr ⟨p', hp', rfl⟩)

theorem dictGet_filterMap_none (ps : List (String × JVal)) (k : String)
    (h : k ∉ ps.map (fun p => pyUpper p.1)) :
    dictGet (ps.filterMap
      (fun p => (pyFloat p.2).map (fun q => (pyUpper p.1, q)))) k = none := by
  induction ps with
  | nil => rfl
  | cons p ps ih =>
    simp only [List.filterMap_cons]
    have hk : pyUpper p.1 ≠ k := by
      intro hc
      exact h (by simp [hc])
    have htl : k ∉ ps.map (fun p => pyUpper p.1) := fun hc => h (by simp [hc])
    cases hv : pyFloat p.2 with
    | none => exact ih htl
    | some q =>
      have hb : (pyUpper p.1 == k) = false := beq_eq_false_iff_ne.mpr hk
      simp only [dictGet, List.find?, hb]
      rw [dictGet] at ih
      exact ih htl

theorem dictGet_filterMap_find? (fields : List (String × JVal)) (k : String)
    (hnd : (fields.map (fun p => pyUpper p.1)).Nodup) :
    dictGet (fields.filterMap
        (fun p => (pyFloat p.2).map (fun q => (pyUpper p.1, q)))) k
      = (fields.find? (fun p => pyUpper p.1 == k)).bind (fun p => pyFloat p.2) := by
  induction fields with
  | nil => rfl
  | cons p ps ih =>
    simp only [List.filterMap_cons, List.find?]
    have hnd' : (ps.map (fun p => pyUpper p.1)).Nodup := by
      simpa using List.Nodup.of_cons (by simpa using hnd)
    by_cases hk : pyUpper p.1 = k
    · have hb : (pyUpper p.1 == k) = true := by simpa using hk
      rw [hb]
      cases hv : pyFloat p.2 with
      | some q =>
        simp [dictGet, List.find?, hb, hv]
      | none =>
        have hmem : k ∉ ps.map (fun p => pyUpper p.1) := by
          simp only [List.map_cons, List.nodup_cons] at hnd
          exact hk ▸ hnd.1
        simpa [Option.map, hv] using dictGet_filterMap_none ps k hmem
    · have hb : (pyUpper p.1 == k) = false := beq_eq_false_iff_ne.mpr hk
      rw [hb]
      cases hv : pyFloat p.2 with
      | none => simpa [Option.map] using ih hnd'
      | some q =>
        have ih' := ih hnd'
        simp only [dictGet] at ih'
        simp only [Option.map, dictGet, List.find?, hb]
        exact ih'

/-- C10: for an object-shaped highs file whose uppercased keys are
distinct, `load_highs` is exactly the mapping `upper(key) ↦ float(value)`
over the entries where conversion succeeds — keys uppercased, and every
convertible value kept (numeric strings, booleans, zero, negative), with
no positivity check. -/
theorem c10_load_highs_formula :
    (∀ (fields : List (String × JVal)) (k : String),
        (fields.map (fun p => pyUpper p.1)).Nodup →
        ∃ m, load_highs (some (.jobj fields)) = Except.ok m
          ∧ dictGet m k = (fields.find? (fun p => pyUpper p.1 == k)).bind
              (fun p => pyFloat p.2))
    ∧ load_highs (some (.jobj [("a", .jnum (-5)), ("b", .jnum 0),
        ("c", .jbool true), ("d", .jstr " 2.5 ")]))
        = Except.ok [("A", -5), ("B", 0), ("C", 1), ("D", 5 / 2)] := by
  constructor
  · intro fields k hnd
    refine ⟨fields.foldl loadStep [], rfl, ?_⟩
    rw [foldl_loadStep_eq_filterMap fields [] hnd (by simp), List.nil_append]
    exact dictGet_filterMap_find? fields k hnd
  · rw [show load_highs (some (.jobj [("a", .jnum (-5)), ("b", .jnum 0),
          ("c", .jbool true), ("d", .jstr " 2.5 ")]))
        = Except.ok [("A", (-5 : ℚ)), ("B", 0), ("C", 1),
            ("D", (natOfDigits ['2'] : ℚ)
              + (natOfDigits ['5'] : ℚ) / (10 : ℚ) ^ (1 : ℕ))] from rfl]
    have h2 : ('2'.toNat - 48) = 2 := rfl
    have h5 : ('5'.toNat - 48) = 5 := rfl
    simp only [Except.ok.injEq, List.cons.injEq, Prod.mk.injEq]
    norm_num [natOfDigits, h2, h5]

/-- C10 witness: the formula applied to a one-entry object with a
lowercase key. -/
theorem c10_load_highs_formula_witness :
    ∃ m, load_highs (some (.jobj [("b", .jnum 3)])) = Except.ok m
      ∧ dictGet m "B" = ([(("b" : String), JVal.jnum 3)].find?
          (fun p => pyUpper p.1 == "B")).bind (fun p => pyFloat p.2) :=
  c10_load_highs_formula.1 [("b", .jnum 3)] "B" (by simp)

end StockTracker
